import Mathlib

/-!
Verification of the telebot referral backend (`src/unnamed/part_001`, second
document, lines 281–539) against its natural-language specification.

The Firebase Realtime Database is modelled as three association tables
(`users/{id}`, `leaderboard/{id}`, `installs/{id}`), per §6 of the spec and
the key paths in the source.  A Firebase `transaction(fn)` is an atomic
read-modify-write of one key, so sequentially it is `set k (fn (find k))`.
JavaScript string truthiness (`!x`, `x || y`) is modelled explicitly:
`null`/absent is `none`, and the empty string is falsy.
-/

set_option autoImplicit false

/-- JS truthiness of an optional string value: `null`/`undefined` and `""` are falsy. -/
def truthyOpt : Option String → Bool
  | none => false
  | some s => s ≠ ""

/-- Model of JS `x || null` on an optional string: falsy values collapse to `null`. -/
def normStr (s : Option String) : Option String :=
  if truthyOpt s then s else none

/-- Model of JS `x || d` where `d` is a non-empty default string. -/
def jsOr (o : Option String) (d : String) : String :=
  match o with
  | some s => if s = "" then d else s
  | none => d

/-- Model of JS `String.prototype.toLowerCase` (the statuses involved are
ASCII), written over the character list so it evaluates in the kernel. -/
def strToLower (s : String) : String := ⟨s.data.map Char.toLower⟩

/-- A database collection: an association list from key path to value
(`users/{id}` etc.).  Lookup finds the first entry with the key. -/
abbrev Table (V : Type) : Type := List (String × V)

namespace Table

def empty {V : Type} : Table V := []

def find {V : Type} : Table V → String → Option V
  | [], _ => none
  | p :: t, k => if p.1 = k then some p.2 else find t k

/-- Replace the value at every entry whose key is `k`. -/
def replace {V : Type} : Table V → String → V → Table V
  | [], _, _ => []
  | p :: t, k, v => (if p.1 = k then (k, v) else p) :: replace t k v

def hasKey {V : Type} (t : Table V) (k : String) : Bool :=
  (find t k).isSome

/-- Model of writing one key of the store (`ref.set` / committing a transaction):
overwrite the entry if present, append it otherwise. -/
def set {V : Type} (t : Table V) (k : String) (v : V) : Table V :=
  if t.hasKey k then t.replace k v else t ++ [(k, v)]

end Table

/-- A `users/{id}` record.  Every field is optional because the code creates
partial records (e.g. `{ points: POINTS_FOR_COMPLETION }` for an unknown
referrer); an absent field reads as `undefined` (falsy / `|| 0`). -/
structure User where
  id : Option String := none
  username : Option String := none
  joinedAt : Option Nat := none
  referrer : Option String := none
  points : Option Nat := none
  completedInstalls : Option Nat := none
  taskCompleted : Option Bool := none
deriving Repr, DecidableEq

/-- A `leaderboard/{id}` record. -/
structure LBEntry where
  points : Option Nat := none
  username : Option String := none
  updatedAt : Option Nat := none
deriving Repr, DecidableEq

/-- An `installs/{installId}` record. -/
structure InstallRecord where
  installId : String
  userRefId : String
  providerStatus : String
  /-- the source's `at` field (a Lean keyword, hence renamed) -/
  atTime : Nat
deriving Repr, DecidableEq

/-- The whole Realtime Database state used by the program. -/
structure Store where
  users : Table User
  leaderboard : Table LBEntry
  installs : Table InstallRecord
deriving Repr, DecidableEq

def emptyStore : Store := ⟨Table.empty, Table.empty, Table.empty⟩

/-- Environment configuration used by the callback flow. -/
structure Config where
  providerCallbackSecret : String
  pointsForCompletion : Nat
deriving Repr, DecidableEq

/-- `upsertUser(userId, username, referrerId)`: one `users/{userId}` transaction.
If the record is absent, create it with `referrer: referrerId || null`,
`username: username || null`, `points: 0`, `completedInstalls: 0`,
`taskCompleted: false`; otherwise fill `referrer` only if currently falsy and
a truthy candidate is given, and likewise `username`. -/
def upsertUser (now : Nat) (st : Store) (userId : String)
    (username referrerId : Option String) : Store :=
  match st.users.find userId with
  | none =>
    let fresh : User :=
      { id := some userId
        username := normStr username
        joinedAt := some now
        referrer := normStr referrerId
        points := some 0
        completedInstalls := some 0
        taskCompleted := some false }
    { st with users := st.users.set userId fresh }
  | some current =>
    let c1 := if !truthyOpt current.referrer && truthyOpt referrerId then
        { current with referrer := referrerId } else current
    let c2 := if !truthyOpt c1.username && truthyOpt username then
        { c1 with username := username } else c1
    { st with users := st.users.set userId c2 }

/-- `bumpLeaderboard(userId, delta, username)`: one `leaderboard/{userId}`
transaction.  Absent entry: create `{ points: delta, username: username || null,
updatedAt: now }`; otherwise `points = (points || 0) + delta`, fill `username`
only if truthy and currently unset, refresh `updatedAt`. -/
def bumpLeaderboard (now : Nat) (st : Store) (userId : String) (delta : Nat)
    (username : Option String) : Store :=
  match st.leaderboard.find userId with
  | none =>
    let fresh : LBEntry :=
      { points := some delta, username := normStr username, updatedAt := some now }
    { st with leaderboard := st.leaderboard.set userId fresh }
  | some cur =>
    let c1 := { cur with points := some (cur.points.getD 0 + delta) }
    let c2 := if truthyOpt username && !truthyOpt c1.username then
        { c1 with username := username } else c1
    { st with leaderboard := st.leaderboard.set userId { c2 with updatedAt := some now } }

/-- The `/start` handler (`bot.onText(/\/start(?:\s+([^\s]+))?/)`): the referral
code is dropped when falsy or equal to the chat id (`refCode && refCode !==
chatId`), then `upsertUser` runs.  The outgoing chat messages are I/O only. -/
def startOnText (now : Nat) (st : Store) (chatId : String)
    (refCode username : Option String) : Store :=
  let referrerId := if truthyOpt refCode && refCode ≠ some chatId then refCode else none
  upsertUser now st chatId username referrerId

/-- The `users/{userRefId}` transaction run after ledgering an install:
increment `completedInstalls` and set `taskCompleted = true`. -/
def completeTxn : Option User → User
  | none => { completedInstalls := some 1, taskCompleted := some true }
  | some cur => { cur with
      completedInstalls := some (cur.completedInstalls.getD 0 + 1)
      taskCompleted := some true }

/-- The `users/{referrerId}` transaction crediting the completion award:
`points = (points || 0) + POINTS_FOR_COMPLETION`, creating a partial record
`{ points: POINTS_FOR_COMPLETION }` when the referrer has no record. -/
def creditTxn (award : Nat) : Option User → User
  | none => { points := some award }
  | some cur => { cur with points := some (cur.points.getD 0 + award) }

/-- Accepted provider statuses (`okStatuses` in the source). -/
def okStatuses : List String := ["completed", "approved", "paid", "success"]

/-- The response bodies `POST /offers/callback` can produce, with their HTTP
status given by `CallbackResp.httpStatus`. -/
inductive CallbackResp where
  | noSecret
  | badSignature
  | missingFields
  | ignored
  | alreadyProcessed
  | userNotFound
  | ok
deriving Repr, DecidableEq

def CallbackResp.httpStatus : CallbackResp → Nat
  | .noSecret => 500
  | .badSignature => 403
  | .missingFields => 400
  | _ => 200

/-- A request to `POST /offers/callback`: the raw body bytes (for the HMAC),
the `x-provider-signature` header (`''` when missing, via `req.get(...) || ''`),
and the parsed JSON fields. -/
structure CallbackReq where
  rawBody : String
  sig : String
  installId : Option String
  userRefId : Option String
  providerStatus : Option String
deriving Repr, DecidableEq

/-- Result of one sequential run of the callback handler.  `credited` is a
ghost output, not present in the source: it records which referrer id (if any)
the run credited, so that credit totals can be stated (§8 invariant). -/
structure CbOut where
  resp : CallbackResp
  store : Store
  credited : Option String
deriving Repr, DecidableEq

/-- The `POST /offers/callback` handler, run sequentially (no interleaving).
`hmac secret body` abstracts `hex(HMAC_SHA256(body, secret))`.  The signature
check `!sig || expected.length !== sig.length || !timingSafeEqual(...)`
rejects exactly when the header is missing or differs from the expected hex. -/
def offersCallback (cfg : Config) (hmac : String → String → String) (now : Nat)
    (st : Store) (req : CallbackReq) : CbOut :=
  if cfg.providerCallbackSecret = "" then ⟨.noSecret, st, none⟩
  else if req.sig = "" ∨ hmac cfg.providerCallbackSecret req.rawBody ≠ req.sig then
    ⟨.badSignature, st, none⟩
  else if !truthyOpt req.installId || !truthyOpt req.userRefId then
    ⟨.missingFields, st, none⟩
  else
    let installId := req.installId.getD ""
    let userRefId := req.userRefId.getD ""
    let status := strToLower (jsOr req.providerStatus "completed")
    if !(okStatuses.contains status) then ⟨.ignored, st, none⟩
    else
      match st.installs.find installId with
      | some _ => ⟨.alreadyProcessed, st, none⟩
      | none =>
        let st1 : Store :=
          { st with installs := st.installs.set installId ⟨installId, userRefId, status, now⟩ }
        match st1.users.find userRefId with
        | none => ⟨.userNotFound, st1, none⟩
        | some user =>
          let st2 : Store :=
            { st1 with users := st1.users.set userRefId (completeTxn (st1.users.find userRefId)) }
          match (if truthyOpt user.referrer then user.referrer else none) with
          | some r =>
            if r ≠ userRefId then
              let refUser := st2.users.find r
              let st3 : Store :=
                { st2 with users :=
                    st2.users.set r (creditTxn cfg.pointsForCompletion (st2.users.find r)) }
              ⟨.ok, bumpLeaderboard now st3 r cfg.pointsForCompletion
                  (normStr (refUser.bind User.username)), some r⟩
            else ⟨.ok, st2, none⟩
          | none => ⟨.ok, st2, none⟩

/-- Points a user record holds, reading an absent record or field as `0`. -/
def userPoints (st : Store) (uid : String) : Nat :=
  ((st.users.find uid).bind User.points).getD 0

/-- Points a leaderboard entry holds, reading an absent entry or field as `0`. -/
def lbPoints (st : Store) (uid : String) : Nat :=
  ((st.leaderboard.find uid).bind LBEntry.points).getD 0

/-- Control point of one in-flight `POST /offers/callback` request, used to
model interleavings.  Each constructor is the code between two `await`
suspension points of the handler; data observed by earlier reads that the
later code uses (the user snapshot, the referrer id, the referrer's username)
is carried in the phase. -/
inductive CbPhase where
  /-- the synchronous prefix: secret, signature, field and status checks -/
  | validate
  /-- `await instRef.once('value')` -/
  | checkInstall
  /-- `await instRef.set({...})` -/
  | setInstall
  /-- `await userRef.once('value')` -/
  | loadUser
  /-- `await userRef.transaction(...)`, then the synchronous referrer branch -/
  | runUserTxn (user : User)
  /-- `await db.ref('users/' + referrerId).once('value')` -/
  | loadReferrer (r : String)
  /-- `await db.ref('users/' + referrerId).transaction(...)` -/
  | runCreditTxn (r : String) (refUsername : Option String)
  /-- `await bumpLeaderboard(...)` -/
  | runBump (r : String) (refUsername : Option String)
  | finished (resp : CallbackResp)
deriving Repr, DecidableEq

/-- One atomic step of the callback handler between `await` points, against
the shared store.  Running the steps in sequence is the same computation as
`offersCallback`; interleaving steps of two requests models the event loop. -/
def cbStep (cfg : Config) (hmac : String → String → String) (now : Nat)
    (req : CallbackReq) (st : Store) : CbPhase → Store × CbPhase
  | .validate =>
    if cfg.providerCallbackSecret = "" then (st, .finished .noSecret)
    else if req.sig = "" ∨ hmac cfg.providerCallbackSecret req.rawBody ≠ req.sig then
      (st, .finished .badSignature)
    else if !truthyOpt req.installId || !truthyOpt req.userRefId then
      (st, .finished .missingFields)
    else if !(okStatuses.contains (strToLower (jsOr req.providerStatus "completed"))) then
      (st, .finished .ignored)
    else (st, .checkInstall)
  | .checkInstall =>
    match st.installs.find (req.installId.getD "") with
    | some _ => (st, .finished .alreadyProcessed)
    | none => (st, .setInstall)
  | .setInstall =>
    let rec0 : InstallRecord :=
      ⟨req.installId.getD "", req.userRefId.getD "",
        strToLower (jsOr req.providerStatus "completed"), now⟩
    ({ st with installs := st.installs.set (req.installId.getD "") rec0 }, .loadUser)
  | .loadUser =>
    match st.users.find (req.userRefId.getD "") with
    | none => (st, .finished .userNotFound)
    | some user => (st, .runUserTxn user)
  | .runUserTxn user =>
    let st' : Store :=
      { st with users :=
          st.users.set (req.userRefId.getD "") (completeTxn (st.users.find (req.userRefId.getD ""))) }
    match (if truthyOpt user.referrer then user.referrer else none) with
    | some r =>
        if r ≠ req.userRefId.getD "" then (st', .loadReferrer r)
        else (st', .finished .ok)
    | none => (st', .finished .ok)
  | .loadReferrer r =>
    (st, .runCreditTxn r (normStr ((st.users.find r).bind User.username)))
  | .runCreditTxn r ru =>
    ({ st with users := st.users.set r (creditTxn cfg.pointsForCompletion (st.users.find r)) },
      .runBump r ru)
  | .runBump r ru =>
    (bumpLeaderboard now st r cfg.pointsForCompletion ru, .finished .ok)
  | .finished resp => (st, .finished resp)

/-- Interleave two concurrent callback requests A and B over the shared store:
each `true` in the schedule runs request A's next atomic step, each `false`
runs request B's. -/
def run2 (cfg : Config) (hmac : String → String → String) (nowA nowB : Nat)
    (reqA reqB : CallbackReq) :
    List Bool → Store × CbPhase × CbPhase → Store × CbPhase × CbPhase
  | [], s => s
  | pick :: rest, (st, pA, pB) =>
    if pick then
      let s' := cbStep cfg hmac nowA reqA st pA
      run2 cfg hmac nowA nowB reqA reqB rest (s'.1, s'.2, pB)
    else
      let s' := cbStep cfg hmac nowB reqB st pB
      run2 cfg hmac nowA nowB reqA reqB rest (s'.1, pA, s'.2)

/-- System state with a ghost account: `credits r` is the total of all
completion awards the callback flow has credited to `r` as referrer. -/
structure GState where
  store : Store
  credits : String → Nat

/-- Ghost-account update: add `award` to the credited referrer, if any. -/
def applyCredit (credits : String → Nat) (c : Option String) (award : Nat) :
    String → Nat :=
  fun r => if c = some r then credits r + award else credits r

/-- States reachable from the empty database by the program's two mutating
entry points: the `/start` chat command and the provider callback (the other
commands and endpoints only read the store). -/
inductive Reachable (cfg : Config) (hmac : String → String → String) : GState → Prop
  | init : Reachable cfg hmac ⟨emptyStore, fun _ => 0⟩
  | start (s : GState) (h : Reachable cfg hmac s) (now : Nat) (chatId : String)
      (refCode username : Option String) :
      Reachable cfg hmac ⟨startOnText now s.store chatId refCode username, s.credits⟩
  | callback (s : GState) (h : Reachable cfg hmac s) (now : Nat) (req : CallbackReq) :
      Reachable cfg hmac
        ⟨(offersCallback cfg hmac now s.store req).store,
          applyCredit s.credits (offersCallback cfg hmac now s.store req).credited
            cfg.pointsForCompletion⟩

namespace Table

variable {V : Type}

theorem find_replace_ne (t : Table V) (k k' : String) (v : V) (h : k' ≠ k) :
    (t.replace k v).find k' = t.find k' := by
  induction t with
  | nil => rfl
  | cons p t ih =>
    simp only [replace, find]
    by_cases hp : p.1 = k
    · simp only [if_pos hp]
      have : ¬ ((k, v).1 = k') := by simpa using (Ne.symm h)
      simp [find, this, ih, hp, Ne.symm h]
    · simp only [if_neg hp, find, ih]

theorem find_replace_self (t : Table V) (k : String) (v : V) :
    (t.replace k v).find k = (t.find k).map (fun _ => v) := by
  induction t with
  | nil => rfl
  | cons p t ih =>
    simp only [replace, find]
    by_cases hp : p.1 = k
    · simp [hp]
    · simp [hp, ih]

theorem find_append_of_none (t s : Table V) (k : String) (h : t.find k = none) :
    (t ++ s).find k = s.find k := by
  induction t with
  | nil => rfl
  | cons p t ih =>
    simp only [find] at h ⊢
    by_cases hp : p.1 = k
    · simp [hp] at h
    · simp only [if_neg hp] at h ⊢
      exact ih h

theorem find_append_of_some (t s : Table V) (k : String) (v : V) (h : t.find k = some v) :
    (t ++ s).find k = some v := by
  induction t with
  | nil => simp [find] at h
  | cons p t ih =>
    simp only [find] at h ⊢
    by_cases hp : p.1 = k
    · simpa [hp] using h
    · simp only [if_neg hp] at h ⊢
      exact ih h

theorem find_set (t : Table V) (k k' : String) (v : V) :
    (t.set k v).find k' = if k' = k then some v else t.find k' := by
  unfold set hasKey
  by_cases hk : (t.find k).isSome
  · simp only [hk, if_true]
    by_cases hkk : k' = k
    · subst hkk
      rcases Option.isSome_iff_exists.mp hk with ⟨w, hw⟩
      simp [find_replace_self, hw]
    · simp [find_replace_ne t k k' v hkk, hkk]
  · simp only [hk, if_false]
    have hnone : t.find k = none := Option.not_isSome_iff_eq_none.mp hk
    by_cases hkk : k' = k
    · subst hkk
      simp [find_append_of_none t _ k' hnone, find]
    · cases hfk : t.find k' with
      | none => simp [find_append_of_none t _ k' hfk, find, Ne.symm hkk, hkk]
      | some w => simp [find_append_of_some t _ k' w hfk, hkk]

theorem replace_replace (t : Table V) (k : String) (v : V) :
    (t.replace k v).replace k v = t.replace k v := by
  induction t with
  | nil => rfl
  | cons p t ih =>
    simp only [replace]
    by_cases hp : p.1 = k
    · simp [hp, ih]
    · simp [hp, ih]

theorem replace_append (t s : Table V) (k : String) (v : V) :
    (t ++ s).replace k v = t.replace k v ++ s.replace k v := by
  induction t with
  | nil => rfl
  | cons p t ih => simp only [List.cons_append, replace, List.append_eq, ih]

theorem replace_of_find_none (t : Table V) (k : String) (v : V) (h : t.find k = none) :
    t.replace k v = t := by
  induction t with
  | nil => rfl
  | cons p t ih =>
    simp only [find] at h
    by_cases hp : p.1 = k
    · simp [hp] at h
    · simp only [if_neg hp] at h
      simp [replace, hp, ih h]

theorem set_of_hasKey (t : Table V) (k : String) (v : V) (h : (t.find k).isSome) :
    t.set k v = t.replace k v := by
  unfold set hasKey
  simp [h]

theorem set_of_not_hasKey (t : Table V) (k : String) (v : V) (h : t.find k = none) :
    t.set k v = t ++ [(k, v)] := by
  unfold set hasKey
  simp [h]

theorem set_set_same (t : Table V) (k : String) (v : V) :
    (t.set k v).set k v = t.set k v := by
  have hk : ((t.set k v).find k).isSome := by
    simp [find_set]
  rw [set_of_hasKey _ _ _ hk]
  by_cases h : (t.find k).isSome
  · rw [set_of_hasKey _ _ _ h]
    exact replace_replace t k v
  · have hnone : t.find k = none := Option.not_isSome_iff_eq_none.mp h
    rw [set_of_not_hasKey _ _ _ hnone, replace_append, replace_of_find_none t k v hnone]
    simp [replace]

end Table

theorem lbPoints_bump (now : Nat) (st : Store) (k : String) (d : Nat)
    (u : Option String) (r : String) :
    lbPoints (bumpLeaderboard now st k d u) r = lbPoints st r + (if r = k then d else 0) := by
  unfold bumpLeaderboard lbPoints
  cases hfind : st.leaderboard.find k with
  | none =>
    simp only [Table.find_set]
    by_cases hr : r = k
    · subst hr; simp [hfind]
    · simp [hr]
  | some cur =>
    simp only [Table.find_set]
    by_cases hr : r = k
    · subst hr
      by_cases hc : truthyOpt u && !truthyOpt cur.username
      · simp [hfind, hc]
      · simp [hfind, hc]
    · simp [hr]

theorem startOnText_leaderboard (now : Nat) (st : Store) (chatId : String)
    (refCode username : Option String) :
    (startOnText now st chatId refCode username).leaderboard = st.leaderboard := by
  unfold startOnText upsertUser
  cases h : st.users.find chatId <;> simp

theorem offersCallback_leaderboard (cfg : Config) (hmac : String → String → String)
    (now : Nat) (st : Store) (req : CallbackReq) (r : String) :
    lbPoints (offersCallback cfg hmac now st req).store r
      = lbPoints st r +
        (if (offersCallback cfg hmac now st req).credited = some r then
          cfg.pointsForCompletion else 0) := by
  by_cases hsec : cfg.providerCallbackSecret = ""
  · simp [offersCallback, hsec]
  by_cases hsig : req.sig = "" ∨ hmac cfg.providerCallbackSecret req.rawBody ≠ req.sig
  · simp [offersCallback, hsec, hsig]
  by_cases hstat : strToLower (jsOr req.providerStatus "completed") ∈ okStatuses
  · by_cases hfld : (!truthyOpt req.installId || !truthyOpt req.userRefId) = true
    · simp [offersCallback, hsec, hsig, hfld]
    · cases hinst : st.installs.find (req.installId.getD "") with
      | some v => simp [offersCallback, hsec, hsig, hfld, hstat, hinst]
      | none =>
        cases huser : st.users.find (req.userRefId.getD "") with
        | none => simp [offersCallback, hsec, hsig, hfld, hstat, hinst, huser, lbPoints]
        | some user =>
          by_cases htr : truthyOpt user.referrer = true
          · cases href : user.referrer with
            | none => simp [truthyOpt] at htr href; simp [href] at htr
            | some rr =>
              by_cases hne : rr = req.userRefId.getD ""
              · subst hne
                rw [href] at htr
                simp [offersCallback, hsec, hsig, hfld, hstat, hinst, huser, href, htr,
                  lbPoints]
              · rw [href] at htr
                by_cases hrr : r = rr
                · subst hrr
                  simp [offersCallback, hsec, hsig, hfld, hstat, hinst, huser, href,
                    htr, hne]
                  rw [lbPoints_bump]
                  simp [lbPoints]
                · simp [offersCallback, hsec, hsig, hfld, hstat, hinst, huser, href,
                    htr, hne, Ne.symm hrr]
                  rw [lbPoints_bump]
                  simp [lbPoints, hrr]
          · simp [offersCallback, hsec, hsig, hfld, hstat, hinst, huser, htr, lbPoints]
  · by_cases hfld : (!truthyOpt req.installId || !truthyOpt req.userRefId) = true
    · simp [offersCallback, hsec, hsig, hfld]
    · simp [offersCallback, hsec, hsig, hfld, hstat]

/-- C5: at every quiescent point, for every referrer id the leaderboard
entry's points equal the sum of all completion awards credited to that id as
referrer (the ghost account `credits`); absent entries hold zero credits. -/
theorem claim_c5_leaderboard_matches_credits (cfg : Config)
    (hmac : String → String → String) (s : GState) (h : Reachable cfg hmac s) :
    ∀ r, lbPoints s.store r = s.credits r := by
  induction h with
  | init => intro r; rfl
  | start s h now chatId refCode username ih =>
    intro r
    simp only [lbPoints, startOnText_leaderboard]
    exact ih r
  | callback s h now req ih =>
    intro r
    rw [offersCallback_leaderboard]
    unfold applyCredit
    rw [ih r]
    by_cases hc : (offersCallback cfg hmac now s.store req).credited = some r <;> simp [hc]

def c5cfg : Config := ⟨"k", 1⟩

def c5hmac : String → String → String := fun _ _ => "s"

def c5req : CallbackReq := ⟨"raw", "s", some "I1", some "B", some "completed"⟩

theorem claim_c5_witness :
    lbPoints (offersCallback c5cfg c5hmac 2
        (startOnText 1 emptyStore "B" (some "A") none) c5req).store "A"
      = applyCredit (fun _ => 0)
          (offersCallback c5cfg c5hmac 2
            (startOnText 1 emptyStore "B" (some "A") none) c5req).credited
          c5cfg.pointsForCompletion "A" :=
  claim_c5_leaderboard_matches_credits c5cfg c5hmac _
    (Reachable.callback _ (Reachable.start _ Reachable.init 1 "B" (some "A") none) 2 c5req)
    "A"

/-- C6: a valid, signed callback whose lowercased status is not in
`{completed, approved, paid, success}` yields the success response marked
`ignored` and leaves the whole store unchanged. -/
theorem claim_c6_nonsuccess_status_ignored (cfg : Config)
    (hmac : String → String → String) (now : Nat) (st : Store) (req : CallbackReq)
    (hsec : cfg.providerCallbackSecret ≠ "")
    (hs1 : req.sig ≠ "")
    (hs2 : hmac cfg.providerCallbackSecret req.rawBody = req.sig)
    (hf1 : truthyOpt req.installId = true)
    (hf2 : truthyOpt req.userRefId = true)
    (hstat : strToLower (jsOr req.providerStatus "completed") ∉ okStatuses) :
    offersCallback cfg hmac now st req = ⟨.ignored, st, none⟩ := by
  simp [offersCallback, hsec, hs1, hs2, hf1, hf2, hstat]

theorem claim_c6_witness :
    strToLower (jsOr (some "Pending") "completed") ∉ okStatuses ∧
    offersCallback ⟨"k", 1⟩ (fun _ _ => "s") 0 emptyStore
        ⟨"raw", "s", some "I1", some "B", some "Pending"⟩
      = ⟨.ignored, emptyStore, none⟩ :=
  ⟨by decide,
    claim_c6_nonsuccess_status_ignored ⟨"k", 1⟩ (fun _ _ => "s") 0 emptyStore
      ⟨"raw", "s", some "I1", some "B", some "Pending"⟩
      (by decide) (by decide) (by decide) (by decide) (by decide) (by decide)⟩

/-- C7: a callback whose `x-provider-signature` header is missing (empty) or
differs from the hex HMAC of the raw body under the shared secret is rejected
with HTTP 403 and no state change, whatever the payload fields are. -/
theorem claim_c7_bad_signature_rejected (cfg : Config)
    (hmac : String → String → String) (now : Nat) (st : Store) (req : CallbackReq)
    (hsec : cfg.providerCallbackSecret ≠ "")
    (hbad : req.sig = "" ∨ hmac cfg.providerCallbackSecret req.rawBody ≠ req.sig) :
    (offersCallback cfg hmac now st req).resp.httpStatus = 403 ∧
    (offersCallback cfg hmac now st req).store = st := by
  have h : offersCallback cfg hmac now st req = ⟨.badSignature, st, none⟩ := by
    simp [offersCallback, hsec, hbad]
  rw [h]
  exact ⟨rfl, rfl⟩

theorem claim_c7_witness :
    ("zz" = "" ∨ (fun _ _ => "s" : String → String → String) "k" "raw" ≠ "zz") ∧
    (offersCallback ⟨"k", 1⟩ (fun _ _ => "s") 0 emptyStore
        ⟨"raw", "zz", some "I1", some "B", some "completed"⟩).resp.httpStatus = 403 ∧
    (offersCallback ⟨"k", 1⟩ (fun _ _ => "s") 0 emptyStore
        ⟨"raw", "zz", some "I1", some "B", some "completed"⟩).store = emptyStore :=
  ⟨Or.inr (by decide),
    claim_c7_bad_signature_rejected ⟨"k", 1⟩ (fun _ _ => "s") 0 emptyStore
      ⟨"raw", "zz", some "I1", some "B", some "completed"⟩
      (by decide) (Or.inr (by decide))⟩

def c2cfg : Config := ⟨"k", 1⟩

def c2hmac : String → String → String := fun _ _ => "s"

def c2store : Store :=
  { users := [("B", { referrer := some "A", points := some 0, completedInstalls := some 0 })],
    leaderboard := [], installs := [] }

def c2req : CallbackReq := ⟨"raw", "s", some "I1", some "B", some "completed"⟩

/-- Schedule: A and B validate and both run their `once('value')` existence
check (both observe the `installs/I1` record absent), then A runs to
completion, then B runs to completion. -/
def c2sched : List Bool :=
  [true, false, true, false, true, true, true, true, true, true,
   false, false, false, false, false, false]

def c2run : Store × CbPhase × CbPhase :=
  run2 c2cfg c2hmac 5 6 c2req c2req c2sched (c2store, .validate, .validate)

/-- C2: refuted.  The handler's idempotency check is `once('value')` followed
by a separate `set`, not an atomic create-if-absent: in the interleaving
`c2sched` of two identical valid callbacks for the same installId, both
observe the record absent, both create it and run the credit path, both
respond `{ok:true}` (not `alreadyProcessed`), and referrer "A" is credited
twice — while a single sequential run credits "A" exactly once. -/
theorem claim_c2_race_double_credit :
    c2run.2.1 = .finished .ok ∧ c2run.2.2 = .finished .ok ∧
    userPoints c2run.1 "A" = 2 ∧ lbPoints c2run.1 "A" = 2 ∧
    userPoints c2store "A" = 0 ∧
    userPoints (offersCallback c2cfg c2hmac 5 c2store c2req).store "A" = 1 := by
  decide

theorem bumpLeaderboard_users (now : Nat) (st : Store) (k : String) (d : Nat)
    (u : Option String) : (bumpLeaderboard now st k d u).users = st.users := by
  unfold bumpLeaderboard
  cases h : st.leaderboard.find k <;> simp

theorem bumpLeaderboard_installs (now : Nat) (st : Store) (k : String) (d : Nat)
    (u : Option String) : (bumpLeaderboard now st k d u).installs = st.installs := by
  unfold bumpLeaderboard
  cases h : st.leaderboard.find k <;> simp

theorem creditTxn_points (award : Nat) (o : Option User) :
    (creditTxn award o).points.getD 0 = (o.bind User.points).getD 0 + award := by
  cases o <;> simp [creditTxn]

/-- C9: a valid, signed callback with no `providerStatus` field is treated as
status `completed` (accepted): it responds ok, ledgers the install with
`providerStatus: "completed"`, and credits the user's referrer. -/
theorem claim_c9_absent_status_means_completed (cfg : Config)
    (hmac : String → String → String) (now : Nat) (st : Store) (req : CallbackReq)
    (u : User) (r : String)
    (hsec : cfg.providerCallbackSecret ≠ "")
    (hs1 : req.sig ≠ "")
    (hs2 : hmac cfg.providerCallbackSecret req.rawBody = req.sig)
    (hf1 : truthyOpt req.installId = true)
    (hf2 : truthyOpt req.userRefId = true)
    (hps : req.providerStatus = none)
    (hinst : st.installs.find (req.installId.getD "") = none)
    (huser : st.users.find (req.userRefId.getD "") = some u)
    (htref : u.referrer = some r)
    (hrne : r ≠ "")
    (hne : r ≠ req.userRefId.getD "") :
    (offersCallback cfg hmac now st req).resp = .ok ∧
    (offersCallback cfg hmac now st req).store.installs.find (req.installId.getD "")
      = some ⟨req.installId.getD "", req.userRefId.getD "", "completed", now⟩ ∧
    userPoints (offersCallback cfg hmac now st req).store r
      = userPoints st r + cfg.pointsForCompletion := by
  have htr : truthyOpt (some r) = true := by simp [truthyOpt, hrne]
  have hcl : strToLower (jsOr req.providerStatus "completed") = "completed" := by
    rw [hps]; decide
  have hmem : strToLower (jsOr req.providerStatus "completed") ∈ okStatuses := by
    rw [hcl]; decide
  have hmem2 : ("completed" : String) ∈ okStatuses := by decide
  refine ⟨?_, ?_, ?_⟩
  · simp [offersCallback, hsec, hs1, hs2, hf1, hf2, hmem, hinst, huser, htref, htr, hne]
  · simp [offersCallback, hsec, hs1, hs2, hf1, hf2, hmem, hmem2, hinst, huser, htref, htr,
      hne, bumpLeaderboard_installs, Table.find_set, hcl]
  · simp [offersCallback, hsec, hs1, hs2, hf1, hf2, hmem, hmem2, hinst, huser, htref, htr,
      hne, bumpLeaderboard_users, Table.find_set, userPoints, creditTxn_points, hcl]

theorem claim_c9_witness :
    (⟨"raw", "s", some "I1", some "B", none⟩ : CallbackReq).providerStatus = none ∧
    (offersCallback ⟨"k", 1⟩ (fun _ _ => "s") 7 c2store
        ⟨"raw", "s", some "I1", some "B", none⟩).resp = .ok ∧
    (offersCallback ⟨"k", 1⟩ (fun _ _ => "s") 7 c2store
        ⟨"raw", "s", some "I1", some "B", none⟩).store.installs.find "I1"
      = some ⟨"I1", "B", "completed", 7⟩ ∧
    userPoints (offersCallback ⟨"k", 1⟩ (fun _ _ => "s") 7 c2store
        ⟨"raw", "s", some "I1", some "B", none⟩).store "A"
      = userPoints c2store "A" + 1 :=
  ⟨rfl,
    claim_c9_absent_status_means_completed ⟨"k", 1⟩ (fun _ _ => "s") 7 c2store
      ⟨"raw", "s", some "I1", some "B", none⟩
      { referrer := some "A", points := some 0, completedInstalls := some 0 } "A"
      (by decide) (by decide) (by decide) (by decide) (by decide) (by decide)
      (by decide) (by decide) (by decide) (by decide) (by decide)⟩

/-- C10: when a completion is processed for a user whose referrer id has no
user record, the credit is still applied: a partial user record
`{ points: award }` is created for the referrer and a fresh leaderboard entry
`{ points: award, username: null, updatedAt: now }` is created for it. -/
theorem claim_c10_unknown_referrer_credited (cfg : Config)
    (hmac : String → String → String) (now : Nat) (st : Store) (req : CallbackReq)
    (u : User) (r : String)
    (hsec : cfg.providerCallbackSecret ≠ "")
    (hs1 : req.sig ≠ "")
    (hs2 : hmac cfg.providerCallbackSecret req.rawBody = req.sig)
    (hf1 : truthyOpt req.installId = true)
    (hf2 : truthyOpt req.userRefId = true)
    (hmem : strToLower (jsOr req.providerStatus "completed") ∈ okStatuses)
    (hinst : st.installs.find (req.installId.getD "") = none)
    (huser : st.users.find (req.userRefId.getD "") = some u)
    (htref : u.referrer = some r)
    (hrne : r ≠ "")
    (hne : r ≠ req.userRefId.getD "")
    (husersr : st.users.find r = none)
    (hlbr : st.leaderboard.find r = none) :
    (offersCallback cfg hmac now st req).resp = .ok ∧
    (offersCallback cfg hmac now st req).store.users.find r
      = some { points := some cfg.pointsForCompletion } ∧
    (offersCallback cfg hmac now st req).store.leaderboard.find r
      = some { points := some cfg.pointsForCompletion, username := none,
               updatedAt := some now } := by
  have htr : truthyOpt (some r) = true := by simp [truthyOpt, hrne]
  have hns : normStr none = none := rfl
  refine ⟨?_, ?_, ?_⟩
  · simp [offersCallback, hsec, hs1, hs2, hf1, hf2, hmem, hinst, huser, htref, htr, hne]
  · simp [offersCallback, hsec, hs1, hs2, hf1, hf2, hmem, hinst, huser, htref, htr, hne,
      bumpLeaderboard_users, Table.find_set, husersr, creditTxn]
  · simp [offersCallback, hsec, hs1, hs2, hf1, hf2, hmem, hinst, huser, htref, htr, hne,
      bumpLeaderboard, Table.find_set, husersr, hlbr, hns]

theorem claim_c10_witness :
    c2store.users.find "A" = none ∧ c2store.leaderboard.find "A" = none ∧
    (offersCallback c2cfg c2hmac 9 c2store c2req).resp = .ok ∧
    (offersCallback c2cfg c2hmac 9 c2store c2req).store.users.find "A"
      = some { points := some 1 } ∧
    (offersCallback c2cfg c2hmac 9 c2store c2req).store.leaderboard.find "A"
      = some { points := some 1, username := none, updatedAt := some 9 } :=
  ⟨by decide, by decide,
    claim_c10_unknown_referrer_credited c2cfg c2hmac 9 c2store c2req
      { referrer := some "A", points := some 0, completedInstalls := some 0 } "A"
      (by decide) (by decide) (by decide) (by decide) (by decide) (by decide)
      (by decide) (by decide) (by decide) (by decide) (by decide) (by decide)
      (by decide)⟩

/-- C1: running the completion flow on a fresh installId with a valid, signed,
success-status payload ledgers exactly one InstallRecord and credits the
referrer's points and leaderboard entry exactly once; running it again with
the identical payload returns the success response `alreadyProcessed` and
leaves the store exactly as it was after the first run. -/
theorem claim_c1_completion_processed_once (cfg : Config)
    (hmac : String → String → String) (now now2 : Nat) (st : Store)
    (req : CallbackReq) (u : User) (r : String)
    (hsec : cfg.providerCallbackSecret ≠ "")
    (hs1 : req.sig ≠ "")
    (hs2 : hmac cfg.providerCallbackSecret req.rawBody = req.sig)
    (hf1 : truthyOpt req.installId = true)
    (hf2 : truthyOpt req.userRefId = true)
    (hmem : strToLower (jsOr req.providerStatus "completed") ∈ okStatuses)
    (hinst : st.installs.find (req.installId.getD "") = none)
    (huser : st.users.find (req.userRefId.getD "") = some u)
    (htref : u.referrer = some r)
    (hrne : r ≠ "")
    (hne : r ≠ req.userRefId.getD "") :
    (offersCallback cfg hmac now st req).resp = .ok ∧
    (offersCallback cfg hmac now st req).store.installs.find (req.installId.getD "")
      = some ⟨req.installId.getD "", req.userRefId.getD "",
              strToLower (jsOr req.providerStatus "completed"), now⟩ ∧
    userPoints (offersCallback cfg hmac now st req).store r
      = userPoints st r + cfg.pointsForCompletion ∧
    lbPoints (offersCallback cfg hmac now st req).store r
      = lbPoints st r + cfg.pointsForCompletion ∧
    offersCallback cfg hmac now2 (offersCallback cfg hmac now st req).store req
      = ⟨.alreadyProcessed, (offersCallback cfg hmac now st req).store, none⟩ := by
  have htr : truthyOpt (some r) = true := by simp [truthyOpt, hrne]
  have hledger : (offersCallback cfg hmac now st req).store.installs.find
      (req.installId.getD "")
      = some ⟨req.installId.getD "", req.userRefId.getD "",
              strToLower (jsOr req.providerStatus "completed"), now⟩ := by
    simp [offersCallback, hsec, hs1, hs2, hf1, hf2, hmem, hinst, huser, htref, htr, hne,
      bumpLeaderboard_installs, Table.find_set]
  have hcred : (offersCallback cfg hmac now st req).credited = some r := by
    simp [offersCallback, hsec, hs1, hs2, hf1, hf2, hmem, hinst, huser, htref, htr, hne]
  refine ⟨?_, hledger, ?_, ?_, ?_⟩
  · simp [offersCallback, hsec, hs1, hs2, hf1, hf2, hmem, hinst, huser, htref, htr, hne]
  · simp [offersCallback, hsec, hs1, hs2, hf1, hf2, hmem, hinst, huser, htref, htr, hne,
      bumpLeaderboard_users, Table.find_set, userPoints, creditTxn_points]
  · rw [offersCallback_leaderboard, hcred]
    simp
  · generalize hgen : (offersCallback cfg hmac now st req).store = st1 at hledger ⊢
    simp [offersCallback, hsec, hs1, hs2, hf1, hf2, hmem, hledger]

theorem claim_c1_witness :
    c2store.installs.find "I1" = none ∧
    (offersCallback c2cfg c2hmac 5 c2store c2req).resp = .ok ∧
    (offersCallback c2cfg c2hmac 5 c2store c2req).store.installs.find "I1"
      = some ⟨"I1", "B", "completed", 5⟩ ∧
    userPoints (offersCallback c2cfg c2hmac 5 c2store c2req).store "A"
      = userPoints c2store "A" + 1 ∧
    lbPoints (offersCallback c2cfg c2hmac 5 c2store c2req).store "A"
      = lbPoints c2store "A" + 1 ∧
    offersCallback c2cfg c2hmac 6 (offersCallback c2cfg c2hmac 5 c2store c2req).store c2req
      = ⟨.alreadyProcessed, (offersCallback c2cfg c2hmac 5 c2store c2req).store, none⟩ :=
  ⟨by decide,
    claim_c1_completion_processed_once c2cfg c2hmac 5 6 c2store c2req
      { referrer := some "A", points := some 0, completedInstalls := some 0 } "A"
      (by decide) (by decide) (by decide) (by decide) (by decide) (by decide)
      (by decide) (by decide) (by decide) (by decide) (by decide)⟩

/-- The callback flow never changes the points (or leaderboard entry) of the
user who completed the install: the credit goes only to a referrer id that the
guard `referrerId && referrerId !== String(userRefId)` forces to differ. -/
theorem offersCallback_no_self_credit (cfg : Config)
    (hmac : String → String → String) (now : Nat) (st : Store) (req : CallbackReq) :
    userPoints (offersCallback cfg hmac now st req).store (req.userRefId.getD "")
      = userPoints st (req.userRefId.getD "") ∧
    lbPoints (offersCallback cfg hmac now st req).store (req.userRefId.getD "")
      = lbPoints st (req.userRefId.getD "") := by
  by_cases hsec : cfg.providerCallbackSecret = ""
  · simp [offersCallback, hsec]
  by_cases hsig : req.sig = "" ∨ hmac cfg.providerCallbackSecret req.rawBody ≠ req.sig
  · simp [offersCallback, hsec, hsig]
  by_cases hstat : strToLower (jsOr req.providerStatus "completed") ∈ okStatuses
  · by_cases hfld : (!truthyOpt req.installId || !truthyOpt req.userRefId) = true
    · simp [offersCallback, hsec, hsig, hfld]
    · cases hinst : st.installs.find (req.installId.getD "") with
      | some v => simp [offersCallback, hsec, hsig, hfld, hstat, hinst]
      | none =>
        cases huser : st.users.find (req.userRefId.getD "") with
        | none =>
          simp [offersCallback, hsec, hsig, hfld, hstat, hinst, huser, userPoints,
            lbPoints]
        | some user =>
          by_cases htru : truthyOpt user.referrer = true
          · cases hrefu : user.referrer with
            | none => rw [hrefu] at htru; simp [truthyOpt] at htru
            | some rr =>
              rw [hrefu] at htru
              by_cases hner : rr = req.userRefId.getD ""
              · subst hner
                simp [offersCallback, hsec, hsig, hfld, hstat, hinst, huser, hrefu,
                  htru, userPoints, lbPoints, Table.find_set, completeTxn]
              · have hner2 : ¬ (req.userRefId.getD "" = rr) := fun h => hner h.symm
                constructor
                · simp [offersCallback, hsec, hsig, hfld, hstat, hinst, huser, hrefu,
                    htru, hner, bumpLeaderboard_users, userPoints, Table.find_set,
                    hner2, completeTxn, huser]
                · simp [offersCallback, hsec, hsig, hfld, hstat, hinst, huser, hrefu,
                    htru, hner]
                  rw [lbPoints_bump]
                  simp [lbPoints, hner2]
          · simp [offersCallback, hsec, hsig, hfld, hstat, hinst, huser, htru,
              userPoints, lbPoints, Table.find_set, completeTxn]
  · by_cases hfld : (!truthyOpt req.installId || !truthyOpt req.userRefId) = true
    · simp [offersCallback, hsec, hsig, hfld]
    · simp [offersCallback, hsec, hsig, hfld, hstat]

/-- C4: a first contact (`/start`) whose referral code equals the user's own
id assigns no referrer — if the record is absent or its `referrer` is unset,
it ends with `referrer = null` — and the completion flow never credits the
completing user's own points or leaderboard entry. -/
theorem claim_c4_self_referral_guard (now : Nat) (st : Store) (uid : String)
    (un : Option String)
    (href : ((st.users.find uid).bind User.referrer) = none) :
    (((startOnText now st uid (some uid) un).users.find uid).bind User.referrer)
      = none ∧
    (∀ (cfg : Config) (hmac : String → String → String) (now' : Nat) (st' : Store)
        (req : CallbackReq),
      userPoints (offersCallback cfg hmac now' st' req).store (req.userRefId.getD "")
        = userPoints st' (req.userRefId.getD "") ∧
      lbPoints (offersCallback cfg hmac now' st' req).store (req.userRefId.getD "")
        = lbPoints st' (req.userRefId.getD "")) := by
  constructor
  · have hguard : startOnText now st uid (some uid) un = upsertUser now st uid un none := by
      unfold startOnText
      simp
    rw [hguard]
    unfold upsertUser
    cases hu : st.users.find uid with
    | none => simp [Table.find_set, normStr, truthyOpt]
    | some cur =>
      rw [hu] at href
      simp at href
      simp [Table.find_set, href, truthyOpt]
      split <;> simp [href]
  · intro cfg hmac now' st' req
    exact offersCallback_no_self_credit cfg hmac now' st' req

theorem claim_c4_witness :
    ((emptyStore.users.find "A").bind User.referrer) = none ∧
    (((startOnText 3 emptyStore "A" (some "A") none).users.find "A").bind User.referrer)
      = none ∧
    userPoints (offersCallback c2cfg c2hmac 5 c2store c2req).store "B"
      = userPoints c2store "B" ∧
    lbPoints (offersCallback c2cfg c2hmac 5 c2store c2req).store "B"
      = lbPoints c2store "B" :=
  ⟨by decide,
    (claim_c4_self_referral_guard 3 emptyStore "A" none (by decide)).1,
    ((claim_c4_self_referral_guard 3 emptyStore "A" none (by decide)).2
      c2cfg c2hmac 5 c2store c2req).1,
    ((claim_c4_self_referral_guard 3 emptyStore "A" none (by decide)).2
      c2cfg c2hmac 5 c2store c2req).2⟩

/-- No user record ever stores an empty-string `referrer`: the create branch
stores `referrerId || null` and the fill branch fires only on a truthy
candidate, so a non-null referrer is always a non-empty id. -/
def UsersOk (t : Table User) : Prop :=
  ∀ uid u, t.find uid = some u → u.referrer ≠ some ""

theorem normStr_ne_some_empty (c : Option String) : normStr c ≠ some "" := by
  cases c with
  | none => simp [normStr, truthyOpt]
  | some s => by_cases h : s = "" <;> simp [normStr, truthyOpt, h]

theorem truthyOpt_ne_some_empty (c : Option String) (h : truthyOpt c = true) :
    c ≠ some "" := by
  cases c with
  | none => simp
  | some s =>
    simp [truthyOpt] at h
    simp [h]

theorem usersOk_set (t : Table User) (k : String) (v : User) (h : UsersOk t)
    (hv : v.referrer ≠ some "") : UsersOk (t.set k v) := by
  intro uid u hfind
  rw [Table.find_set] at hfind
  by_cases he : uid = k
  · rw [if_pos he] at hfind
    injection hfind with h2
    exact h2 ▸ hv
  · rw [if_neg he] at hfind
    exact h uid u hfind

theorem usersOk_upsert (now : Nat) (st : Store) (chatId : String)
    (un cand : Option String) (h : UsersOk st.users) :
    UsersOk (upsertUser now st chatId un cand).users := by
  unfold upsertUser
  cases hcur : st.users.find chatId with
  | none => exact usersOk_set _ _ _ h (normStr_ne_some_empty cand)
  | some cur =>
    apply usersOk_set _ _ _ h
    split
    · next hc =>
      have hcand : truthyOpt cand = true := by
        simp only [Bool.and_eq_true] at hc
        exact hc.2
      have hne := truthyOpt_ne_some_empty cand hcand
      split <;> simp [hne]
    · next =>
      split <;> simpa using h _ _ hcur

theorem completeTxn_referrer (o : Option User) :
    (completeTxn o).referrer = o.bind User.referrer := by
  cases o <;> simp [completeTxn]

theorem creditTxn_referrer (award : Nat) (o : Option User) :
    (creditTxn award o).referrer = o.bind User.referrer := by
  cases o <;> simp [creditTxn]

theorem usersOk_txn_value (t : Table User) (k : String) (h : UsersOk t)
    (f : Option User → User) (hf : ∀ o, (f o).referrer = o.bind User.referrer) :
    (f (t.find k)).referrer ≠ some "" := by
  rw [hf]
  cases hfind : t.find k with
  | none => simp
  | some cur =>
    simpa using h k cur hfind

theorem usersOk_callback (cfg : Config) (hmac : String → String → String)
    (now : Nat) (st : Store) (req : CallbackReq) (h : UsersOk st.users) :
    UsersOk (offersCallback cfg hmac now st req).store.users := by
  by_cases hsec : cfg.providerCallbackSecret = ""
  · simpa [offersCallback, hsec] using h
  by_cases hsig : req.sig = "" ∨ hmac cfg.providerCallbackSecret req.rawBody ≠ req.sig
  · simpa [offersCallback, hsec, hsig] using h
  by_cases hstat : strToLower (jsOr req.providerStatus "completed") ∈ okStatuses
  · by_cases hfld : (!truthyOpt req.installId || !truthyOpt req.userRefId) = true
    · simpa [offersCallback, hsec, hsig, hfld] using h
    · cases hinst : st.installs.find (req.installId.getD "") with
      | some v => simpa [offersCallback, hsec, hsig, hfld, hstat, hinst] using h
      | none =>
        cases huser : st.users.find (req.userRefId.getD "") with
        | none => simpa [offersCallback, hsec, hsig, hfld, hstat, hinst, huser] using h
        | some user =>
          have h2 : UsersOk (st.users.set (req.userRefId.getD "")
              (completeTxn (st.users.find (req.userRefId.getD "")))) :=
            usersOk_set _ _ _ h (usersOk_txn_value _ _ h _ completeTxn_referrer)
          by_cases htru : truthyOpt user.referrer = true
          · cases hrefu : user.referrer with
            | none => rw [hrefu] at htru; simp [truthyOpt] at htru
            | some rr =>
              rw [hrefu] at htru
              by_cases hner : rr = req.userRefId.getD ""
              · subst hner
                simpa [offersCallback, hsec, hsig, hfld, hstat, hinst, huser, hrefu,
                  htru] using h2
              · have h3 : UsersOk ((st.users.set (req.userRefId.getD "")
                    (completeTxn (st.users.find (req.userRefId.getD "")))).set rr
                      (creditTxn cfg.pointsForCompletion
                        ((st.users.set (req.userRefId.getD "")
                          (completeTxn (st.users.find (req.userRefId.getD "")))).find rr))) :=
                  usersOk_set _ _ _ h2
                    (usersOk_txn_value _ _ h2 _ (creditTxn_referrer cfg.pointsForCompletion))
                simpa [offersCallback, hsec, hsig, hfld, hstat, hinst, huser, hrefu,
                  htru, hner, bumpLeaderboard_users] using h3
          · simpa [offersCallback, hsec, hsig, hfld, hstat, hinst, huser, htru] using h2
  · by_cases hfld : (!truthyOpt req.installId || !truthyOpt req.userRefId) = true
    · simpa [offersCallback, hsec, hsig, hfld] using h
    · simpa [offersCallback, hsec, hsig, hfld, hstat] using h

theorem reachable_usersOk (cfg : Config) (hmac : String → String → String)
    (s : GState) (h : Reachable cfg hmac s) : UsersOk s.store.users := by
  induction h with
  | init => intro uid u hfind; simp [emptyStore, Table.empty, Table.find] at hfind
  | start s h now chatId refCode username ih =>
    exact usersOk_upsert now s.store chatId username _ ih
  | callback s h now req ih =>
    exact usersOk_callback cfg hmac now s.store req ih

theorem upsertUser_referrer_immutable (now : Nat) (st : Store) (chatId : String)
    (un cand : Option String) (tgt : String) (u : User)
    (hfind : st.users.find tgt = some u) (htr : truthyOpt u.referrer = true) :
    ((upsertUser now st chatId un cand).users.find tgt).bind User.referrer
      = u.referrer := by
  unfold upsertUser
  cases hcur : st.users.find chatId with
  | none =>
    by_cases he : tgt = chatId
    · subst he
      rw [hcur] at hfind
      cases hfind
    · simp [Table.find_set, he, hfind]
  | some cur =>
    by_cases he : tgt = chatId
    · subst he
      rw [hcur] at hfind
      injection hfind with h2
      subst h2
      simp only [Table.find_set, if_pos rfl]
      simp [htr]
      split <;> simp
    · simp [Table.find_set, he, hfind]

theorem upsertUser_idempotent (now now2 : Nat) (st : Store) (uid : String)
    (un cand cand' : Option String) (hc : cand' = cand ∨ cand' = none) :
    upsertUser now2 (upsertUser now st uid un cand) uid un cand'
      = upsertUser now st uid un cand := by
  have hcand' : truthyOpt cand = false → truthyOpt cand' = false := by
    intro hfalse
    rcases hc with h | h <;> subst h
    · exact hfalse
    · rfl
  unfold upsertUser
  cases hcur : st.users.find uid with
  | none =>
    simp only [Table.find_set, if_pos rfl]
    by_cases hrc : truthyOpt cand = true
    · by_cases huc : truthyOpt un = true
      · simp [normStr, hrc, huc, Table.set_set_same]
      · simp only [Bool.not_eq_true] at huc
        simp [normStr, hrc, huc, Table.set_set_same]
    · simp only [Bool.not_eq_true] at hrc
      by_cases hun : truthyOpt un = true
      · simp [normStr, hrc, hcand' hrc, hun, Table.set_set_same]
      · simp only [Bool.not_eq_true] at hun
        simp [normStr, hrc, hcand' hrc, hun, Table.set_set_same]
  | some cur =>
    simp only [Table.find_set, if_pos rfl]
    by_cases hrr : truthyOpt cur.referrer = true
    · by_cases huu : truthyOpt cur.username = true
      · simp [hrr, huu, Table.set_set_same]
      · simp only [Bool.not_eq_true] at huu
        by_cases hun : truthyOpt un = true
        · simp [hrr, huu, hun, Table.set_set_same]
        · simp only [Bool.not_eq_true] at hun
          simp [hrr, huu, hun, Table.set_set_same]
    · simp only [Bool.not_eq_true] at hrr
      by_cases hrc : truthyOpt cand = true
      · by_cases huu : truthyOpt cur.username = true
        · simp [hrr, hrc, huu, Table.set_set_same]
        · simp only [Bool.not_eq_true] at huu
          by_cases hun : truthyOpt un = true
          · simp [hrr, hrc, huu, hun, Table.set_set_same]
          · simp only [Bool.not_eq_true] at hun
            simp [hrr, hrc, huu, hun, Table.set_set_same]
      · simp only [Bool.not_eq_true] at hrc
        by_cases huu : truthyOpt cur.username = true
        · simp [hrr, hrc, hcand' hrc, huu, Table.set_set_same]
        · simp only [Bool.not_eq_true] at huu
          by_cases hun : truthyOpt un = true
          · simp [hrr, hrc, hcand' hrc, huu, hun, Table.set_set_same]
          · simp only [Bool.not_eq_true] at hun
            simp [hrr, hrc, hcand' hrc, huu, hun, Table.set_set_same]

/-- C3: once a user's `referrer` is non-null it never changes: any later
`upsertUser` call with any candidate leaves it intact (first conjunct, for the
truthy referrers that the system stores; by the second conjunct every non-null
referrer in a reachable store is non-empty, i.e. truthy), and redundant calls
are idempotent — re-running `upsertUser` with the same or an absent candidate
changes nothing (third conjunct). -/
theorem claim_c3_referrer_immutable (st : Store) (tgt : String) (u : User)
    (hfind : st.users.find tgt = some u) (htr : truthyOpt u.referrer = true) :
    (∀ (now : Nat) (chatId : String) (un cand : Option String),
      ((upsertUser now st chatId un cand).users.find tgt).bind User.referrer
        = u.referrer) ∧
    (∀ (cfg : Config) (hmac : String → String → String) (s : GState),
      Reachable cfg hmac s →
        ∀ uid v, s.store.users.find uid = some v → v.referrer ≠ some "") ∧
    (∀ (now now2 : Nat) (st' : Store) (uid : String) (un cand cand' : Option String),
      cand' = cand ∨ cand' = none →
      upsertUser now2 (upsertUser now st' uid un cand) uid un cand'
        = upsertUser now st' uid un cand) :=
  ⟨fun now chatId un cand =>
      upsertUser_referrer_immutable now st chatId un cand tgt u hfind htr,
   fun cfg hmac s h uid v hv => reachable_usersOk cfg hmac s h uid v hv,
   fun now now2 st' uid un cand cand' hc =>
      upsertUser_idempotent now now2 st' uid un cand cand' hc⟩

theorem claim_c3_witness :
    c2store.users.find "B"
      = some { referrer := some "A", points := some 0, completedInstalls := some 0 } ∧
    truthyOpt (some "A") = true ∧
    ((upsertUser 4 c2store "B" none (some "C")).users.find "B").bind User.referrer
      = some "A" ∧
    upsertUser 5 (upsertUser 4 emptyStore "B" none (some "A")) "B" none (some "A")
      = upsertUser 4 emptyStore "B" none (some "A") :=
  ⟨by decide, by decide,
    (claim_c3_referrer_immutable c2store "B"
      { referrer := some "A", points := some 0, completedInstalls := some 0 }
      (by decide) (by decide)).1 4 "B" none (some "C"),
    (claim_c3_referrer_immutable c2store "B"
      { referrer := some "A", points := some 0, completedInstalls := some 0 }
      (by decide) (by decide)).2.2 4 5 emptyStore "B" none (some "A") (some "A")
      (Or.inl rfl)⟩

/-- `(e.points || 0)` of a keyed leaderboard entry, as the JS comparator
`(b.points||0) - (a.points||0)` reads it. -/
def pts (e : String × LBEntry) : Nat := e.2.points.getD 0

/-- Insert `x` into `l`, keeping every `y` with `le y x` before it.  Equal
elements therefore keep their original order (a stable insertion). -/
def insLe {α : Type} (le : α → α → Bool) (x : α) : List α → List α
  | [] => [x]
  | y :: ys => if le y x then y :: insLe le x ys else x :: y :: ys

/-- Stable insertion sort with respect to the Boolean "may come before"
relation `le`: elements are taken left to right, so among `le`-ties the
original order survives.  Models the ECMAScript stable `Array.sort`. -/
def isort {α : Type} (le : α → α → Bool) (l : List α) : List α :=
  l.foldl (fun acc x => insLe le x acc) []

/-- Order of the Firebase query `orderByChild('points')`: points ascending,
ties by key ascending. -/
def lexLe (a b : String × LBEntry) : Bool :=
  decide (pts a < pts b) || (decide (pts a = pts b) && decide (a.1 ≤ b.1))

/-- Key enumeration order of the snapshot object (`Object.keys`): ascending
by key.  (For the numeric chat ids the program uses, JS objects enumerate
integer-like keys in ascending order; for non-numeric keys RTDB delivers the
query order, which for equal points is also key-ascending.) -/
def keyLe (a b : String × LBEntry) : Bool := decide (a.1 ≤ b.1)

/-- The JS comparator `(b.points||0) - (a.points||0)`: `a` may come before `b`
iff the comparator is `≤ 0`, i.e. `pts b ≤ pts a`. -/
def ptsDescLe (a b : String × LBEntry) : Bool := decide (pts b ≤ pts a)

/-- `Math.min(100, Math.max(1, parseInt(n)))` for an integer route param. -/
def jsClamp (n : Int) : Nat := (min 100 (max 1 n)).toNat

/-- `GET /leaderboard/top/:n`: clamp `n` to `[1,100]`, query the leaderboard
`orderByChild('points').limitToLast(eff)` (the greatest `eff` entries in
`lexLe` order), enumerate the snapshot object's keys, and stable-sort by
points descending.  The handler performs no writes, so it returns the store
unchanged. -/
def leaderboardTop (st : Store) (n : Int) : List (String × LBEntry) × Store :=
  let eff := jsClamp n
  let sorted := isort lexLe st.leaderboard
  let snap := sorted.drop (sorted.length - eff)
  let arr := isort ptsDescLe (isort keyLe snap)
  (arr, st)

theorem perm_insLe {α : Type} (le : α → α → Bool) (x : α) (l : List α) :
    List.Perm (insLe le x l) (x :: l) := by
  induction l with
  | nil => exact List.Perm.refl _
  | cons y ys ih =>
    unfold insLe
    by_cases h : le y x = true
    · rw [if_pos h]
      exact (ih.cons y).trans (List.Perm.swap x y ys)
    · rw [if_neg h]

theorem perm_foldl_insLe {α : Type} (le : α → α → Bool) :
    ∀ (l acc : List α),
      List.Perm (l.foldl (fun a x => insLe le x a) acc) (acc ++ l) := by
  intro l
  induction l with
  | nil => intro acc; simp
  | cons x l ih =>
    intro acc
    have h1 : List.Perm (l.foldl (fun a x => insLe le x a) (insLe le x acc))
        ((insLe le x acc) ++ l) := ih _
    have h2 : List.Perm ((insLe le x acc) ++ l) ((x :: acc) ++ l) :=
      (perm_insLe le x acc).append_right l
    have h3 : List.Perm ((x :: acc) ++ l) (acc ++ x :: l) := List.perm_middle.symm
    exact (h1.trans h2).trans h3

theorem perm_isort {α : Type} (le : α → α → Bool) (l : List α) :
    List.Perm (isort le l) l := by
  simpa using perm_foldl_insLe le l []

theorem mem_insLe {α : Type} (le : α → α → Bool) (x z : α) (l : List α)
    (h : z ∈ insLe le x l) : z = x ∨ z ∈ l := by
  have := (perm_insLe le x l).mem_iff.mp h
  simpa using this

theorem sorted_insLe {α : Type} (le : α → α → Bool)
    (htot : ∀ a b, le a b = true ∨ le b a = true)
    (htrans : ∀ a b c, le a b = true → le b c = true → le a c = true)
    (x : α) (l : List α) (h : l.Pairwise (fun a b => le a b = true)) :
    (insLe le x l).Pairwise (fun a b => le a b = true) := by
  induction l with
  | nil => simp [insLe]
  | cons y ys ih =>
    rcases List.pairwise_cons.mp h with ⟨hy, hys⟩
    unfold insLe
    by_cases hle : le y x = true
    · rw [if_pos hle]
      refine List.pairwise_cons.mpr ⟨?_, ih hys⟩
      intro z hz
      rcases mem_insLe le x z ys hz with rfl | hz
      · exact hle
      · exact hy z hz
    · rw [if_neg hle]
      have hxy : le x y = true := (htot x y).resolve_right (fun h2 => hle h2)
      refine List.pairwise_cons.mpr ⟨?_, h⟩
      intro z hz
      rcases List.mem_cons.mp hz with rfl | hz
      · exact hxy
      · exact htrans x y z hxy (hy z hz)

theorem sorted_foldl_insLe {α : Type} (le : α → α → Bool)
    (htot : ∀ a b, le a b = true ∨ le b a = true)
    (htrans : ∀ a b c, le a b = true → le b c = true → le a c = true) :
    ∀ (l acc : List α), acc.Pairwise (fun a b => le a b = true) →
      (l.foldl (fun a x => insLe le x a) acc).Pairwise (fun a b => le a b = true) := by
  intro l
  induction l with
  | nil => intro acc h; exact h
  | cons x l ih =>
    intro acc h
    exact ih (insLe le x acc) (sorted_insLe le htot htrans x acc h)

theorem sorted_isort {α : Type} (le : α → α → Bool)
    (htot : ∀ a b, le a b = true ∨ le b a = true)
    (htrans : ∀ a b c, le a b = true → le b c = true → le a c = true)
    (l : List α) : (isort le l).Pairwise (fun a b => le a b = true) :=
  sorted_foldl_insLe le htot htrans l [] List.Pairwise.nil

theorem stable_insLe_S (x : String × LBEntry) (acc : List (String × LBEntry))
    (hS : acc.Pairwise (fun a b => pts b ≤ pts a ∧ (pts a = pts b → a.1 < b.1)))
    (hT : ∀ y ∈ acc, pts y = pts x → y.1 < x.1) :
    (insLe ptsDescLe x acc).Pairwise
      (fun a b => pts b ≤ pts a ∧ (pts a = pts b → a.1 < b.1)) := by
  induction acc with
  | nil => simp [insLe]
  | cons y ys ih =>
    rcases List.pairwise_cons.mp hS with ⟨hy, hys⟩
    unfold insLe
    by_cases hle : ptsDescLe y x = true
    · rw [if_pos hle]
      have hxy : pts x ≤ pts y := of_decide_eq_true hle
      refine List.pairwise_cons.mpr
        ⟨?_, ih hys (fun z hz => hT z (List.mem_cons_of_mem y hz))⟩
      intro z hz
      rcases mem_insLe _ x z ys hz with rfl | hz
      · exact ⟨hxy, fun he => hT y (List.mem_cons_self y ys) he⟩
      · exact hy z hz
    · rw [if_neg hle]
      have hyx : pts y < pts x := by
        have h2 : ¬ (pts x ≤ pts y) := fun h3 => hle (decide_eq_true h3)
        omega
      refine List.pairwise_cons.mpr ⟨?_, hS⟩
      intro z hz
      rcases List.mem_cons.mp hz with rfl | hz
      · exact ⟨hyx.le, fun he => absurd he (by omega)⟩
      · have hz2 := hy z hz
        exact ⟨le_trans hz2.1 hyx.le, fun he => absurd he (by omega)⟩

theorem stable_foldl_S :
    ∀ (l acc : List (String × LBEntry)),
      acc.Pairwise (fun a b => pts b ≤ pts a ∧ (pts a = pts b → a.1 < b.1)) →
      (∀ y ∈ acc, ∀ x ∈ l, pts y = pts x → y.1 < x.1) →
      l.Pairwise (fun a b => pts a = pts b → a.1 < b.1) →
      (l.foldl (fun a x => insLe ptsDescLe x a)
        acc).Pairwise (fun a b => pts b ≤ pts a ∧ (pts a = pts b → a.1 < b.1)) := by
  intro l
  induction l with
  | nil => intro acc h _ _; exact h
  | cons x l ih =>
    intro acc hS hcross hT
    rcases List.pairwise_cons.mp hT with ⟨hx, hT2⟩
    apply ih
    · exact stable_insLe_S x acc hS (fun y hy => hcross y hy x (List.mem_cons_self x l))
    · intro y hy z hz
      rcases mem_insLe _ x y acc hy with rfl | hy
      · exact hx z hz
      · exact hcross y hy z (List.mem_cons_of_mem x hz)
    · exact hT2

theorem keysorted_strict (l : List (String × LBEntry))
    (hnd : ((isort keyLe l).map Prod.fst).Nodup) :
    (isort keyLe l).Pairwise (fun a b => a.1 < b.1) := by
  have htot : ∀ a b : String × LBEntry, keyLe a b = true ∨ keyLe b a = true := by
    intro a b
    rcases le_total a.1 b.1 with h | h
    · exact Or.inl (decide_eq_true h)
    · exact Or.inr (decide_eq_true h)
  have htrans : ∀ a b c : String × LBEntry,
      keyLe a b = true → keyLe b c = true → keyLe a c = true := by
    intro a b c h1 h2
    exact decide_eq_true (le_trans (of_decide_eq_true h1) (of_decide_eq_true h2))
  have hs := sorted_isort keyLe htot htrans l
  have hne : (isort keyLe l).Pairwise (fun a b => a.1 ≠ b.1) :=
    List.pairwise_map.mp hnd
  exact (hs.and hne).imp (fun h => lt_of_le_of_ne (of_decide_eq_true h.1) h.2)

/-- C8: the `GET /leaderboard/top/:n` handler clamps the effective `n` to
`[1,100]`, returns at most that many entries sorted by points descending with
ties broken deterministically by ascending userId (a stable secondary key),
performs no writes, and a repeated call with no intervening writes returns
the identical sequence. -/
theorem claim_c8_leaderboard_top (st : Store) (n : Int)
    (hnd : (st.leaderboard.map Prod.fst).Nodup) :
    1 ≤ jsClamp n ∧ jsClamp n ≤ 100 ∧
    (leaderboardTop st n).1.length ≤ jsClamp n ∧
    (leaderboardTop st n).1.Pairwise
      (fun a b => pts b ≤ pts a ∧ (pts a = pts b → a.1 < b.1)) ∧
    (leaderboardTop st n).2 = st ∧
    (leaderboardTop (leaderboardTop st n).2 n).1 = (leaderboardTop st n).1 := by
  have hbounds : 1 ≤ jsClamp n ∧ jsClamp n ≤ 100 := by
    unfold jsClamp
    have h3 : (1 : Int) ≤ min 100 (max 1 n) := le_min (by norm_num) (le_max_left _ _)
    have h2 : min 100 (max 1 n) ≤ 100 := min_le_left _ _
    generalize hm : min 100 (max 1 n) = m at h3 h2
    constructor <;> omega
  refine ⟨hbounds.1, hbounds.2, ?_, ?_, rfl, rfl⟩
  · simp only [leaderboardTop]
    have e1 := (perm_isort ptsDescLe
      (isort keyLe ((isort lexLe st.leaderboard).drop
        ((isort lexLe st.leaderboard).length - jsClamp n)))).length_eq
    have e2 := (perm_isort keyLe ((isort lexLe st.leaderboard).drop
        ((isort lexLe st.leaderboard).length - jsClamp n))).length_eq
    have e3 : (((isort lexLe st.leaderboard).drop
        ((isort lexLe st.leaderboard).length - jsClamp n))).length
        = (isort lexLe st.leaderboard).length
          - ((isort lexLe st.leaderboard).length - jsClamp n) :=
      List.length_drop _ _
    omega
  · simp only [leaderboardTop]
    have hperm1 := perm_isort lexLe st.leaderboard
    have hnd1 : ((isort lexLe st.leaderboard).map Prod.fst).Nodup :=
      ((hperm1.map Prod.fst).nodup_iff).mpr hnd
    have hsub : ((isort lexLe st.leaderboard).drop
        ((isort lexLe st.leaderboard).length - jsClamp n)).Sublist
        (isort lexLe st.leaderboard) := List.drop_sublist _ _
    have hnd2 : (((isort lexLe st.leaderboard).drop
        ((isort lexLe st.leaderboard).length - jsClamp n)).map Prod.fst).Nodup :=
      hnd1.sublist (hsub.map Prod.fst)
    have hperm2 := perm_isort keyLe ((isort lexLe st.leaderboard).drop
        ((isort lexLe st.leaderboard).length - jsClamp n))
    have hnd3 : ((isort keyLe ((isort lexLe st.leaderboard).drop
        ((isort lexLe st.leaderboard).length - jsClamp n))).map Prod.fst).Nodup :=
      ((hperm2.map Prod.fst).nodup_iff).mpr hnd2
    have hstrict := keysorted_strict _ hnd3
    have hT := hstrict.imp
      (S := fun a b : String × LBEntry => pts a = pts b → a.1 < b.1)
      (fun h _ => h)
    exact stable_foldl_S _ [] List.Pairwise.nil (by simp) hT

theorem claim_c8_witness :
    ((([("2", { points := some 5, username := none, updatedAt := none }),
        ("1", { points := some 5, username := none, updatedAt := none }),
        ("3", { points := some 9, username := none, updatedAt := none })] :
        Table LBEntry).map Prod.fst).Nodup) ∧
    (1 ≤ jsClamp 2 ∧ jsClamp 2 ≤ 100 ∧
     (leaderboardTop ⟨[], [("2", { points := some 5, username := none, updatedAt := none }),
        ("1", { points := some 5, username := none, updatedAt := none }),
        ("3", { points := some 9, username := none, updatedAt := none })], []⟩ 2).1.length
        ≤ jsClamp 2 ∧
     (leaderboardTop ⟨[], [("2", { points := some 5, username := none, updatedAt := none }),
        ("1", { points := some 5, username := none, updatedAt := none }),
        ("3", { points := some 9, username := none, updatedAt := none })], []⟩ 2).1.Pairwise
        (fun a b => pts b ≤ pts a ∧ (pts a = pts b → a.1 < b.1)) ∧
     (leaderboardTop ⟨[], [("2", { points := some 5, username := none, updatedAt := none }),
        ("1", { points := some 5, username := none, updatedAt := none }),
        ("3", { points := some 9, username := none, updatedAt := none })], []⟩ 2).2
        = ⟨[], [("2", { points := some 5, username := none, updatedAt := none }),
        ("1", { points := some 5, username := none, updatedAt := none }),
        ("3", { points := some 9, username := none, updatedAt := none })], []⟩ ∧
     (leaderboardTop (leaderboardTop ⟨[], [("2", { points := some 5, username := none, updatedAt := none }),
        ("1", { points := some 5, username := none, updatedAt := none }),
        ("3", { points := some 9, username := none, updatedAt := none })], []⟩ 2).2 2).1
        = (leaderboardTop ⟨[], [("2", { points := some 5, username := none, updatedAt := none }),
        ("1", { points := some 5, username := none, updatedAt := none }),
        ("3", { points := some 9, username := none, updatedAt := none })], []⟩ 2).1) :=
  ⟨by decide,
    claim_c8_leaderboard_top
      ⟨[], [("2", { points := some 5, username := none, updatedAt := none }),
        ("1", { points := some 5, username := none, updatedAt := none }),
        ("3", { points := some 9, username := none, updatedAt := none })], []⟩ 2
      (by decide)⟩

